import Mathlib

/-!
Verification of the crunchyroll history tracker (`src/main.rs`).

The program is a linear fetch-aggregate-write pipeline.  We embed it
shallowly:

* the external provider's watch-history stream is a `List` of per-entry
  results (`Except` models the stream's per-item fallibility);
* the provider's media lookup (`media_collection_from_id`) is a function
  `String → Except String MediaCollection` passed in as a parameter;
* the two `HashMap`s of `main` are association lists
  (`List (String × _)`), looked up with `List.lookup`;
* the `while let` loop of `main` (lines 83-147) becomes the structural
  recursion `runLoop`;
* the cutoff file and the report file are modelled by their contents.

All machine integers that matter (`u32` counts, `usize` totals) stay far
below their overflow bounds in every statement proved here, so they are
modelled as `Nat`.  Timestamps (`DateTime<Utc>`) are compared only by
order in the loop, so there they are modelled as `Int`; the cutoff-file
round trip models the civil textual form explicitly.
-/

/-- An image of a series poster; the source URL is the only field the
program reads (`img.source`). -/
structure PosterImage where
  source : String
deriving DecidableEq, Repr

/-- The image collection of a series; the program only reads
`poster_tall`. -/
structure SeriesImages where
  poster_tall : List PosterImage
deriving DecidableEq, Repr

/-- The fields of a `crunchyroll_rs` `Series` object that `main`
reads (lines 121-136 of `src/main.rs`). -/
structure Series where
  title : String
  slug_title : String
  description : String
  extended_description : String
  episode_count : Nat
  season_count : Nat
  content_provider : Option String
  keywords : List String
  images : SeriesImages
deriving DecidableEq, Repr

/-- The single field of a `Movie` that `main` reads. -/
structure Movie where
  title : String
deriving DecidableEq, Repr

/-- The single field of an `Episode` that `main` reads. -/
structure Episode where
  title : String
deriving DecidableEq, Repr

/-- The `MediaCollection` enum: `main` matches `Movie`, `Series` and
`Episode` and treats every other variant uniformly (`_ => continue`),
so the remaining variants are collapsed into `other`. -/
inductive MediaCollection where
  | movie (m : Movie)
  | series (s : Series)
  | episode (e : Episode)
  | other
deriving DecidableEq, Repr

/-- One watch-history entry: the parent media id and the play
timestamp (`entry.date_played`, modelled by order as an `Int`). -/
structure HistoryEntry where
  parent_id : String
  date_played : Int
deriving DecidableEq, Repr

/-- The JSON object built for a newly seen series
(`json!` block, lines 123-136 of `src/main.rs`). -/
structure SeriesData where
  title : String
  slug : String
  description : String
  extendedDescription : String
  episodes : Nat
  seasons : Nat
  publisher : String
  keywords : List String
  posterTall : String
deriving DecidableEq, Repr

/-- Extraction of the series attributes, line for line:
`content_provider.unwrap_or("Unknown")` and
`poster_tall.get(2).map(|img| img.source).unwrap_or("No image available")`. -/
def extractSeriesData (s : Series) : SeriesData :=
  { title := s.title
    slug := s.slug_title
    description := s.description
    extendedDescription := s.extended_description
    episodes := s.episode_count
    seasons := s.season_count
    publisher := s.content_provider.getD "Unknown"
    keywords := s.keywords
    posterTall := ((s.images.poster_tall.get? 2).map PosterImage.source).getD
      "No image available" }

/-- The classification match of lines 98-103: `Movie`, `Series` and
`Episode` yield their display title, any other variant yields `none`
(the loop `continue`s on it). -/
def titleOf : MediaCollection → Option String
  | .movie m => some m.title
  | .series s => some s.title
  | .episode e => some e.title
  | .other => none

/-- `entry_date < cutoff` when a cutoff is configured (line 106-107);
without a cutoff the test never fires. -/
def beforeCutoff (cutoff : Option Int) (d : Int) : Bool :=
  match cutoff with
  | some c => decide (d < c)
  | none => false

/-- `total_show_count >= limit_value` when a limit is configured
(lines 84-87). -/
def limitReached (limit : Option Nat) (total : Nat) : Bool :=
  match limit with
  | some n => decide (n ≤ total)
  | none => false

/-- `title_episode_counts.entry(title).or_insert(0); *count += 1`
(lines 117-118) on the association-list model of the `HashMap`. -/
def bumpCount (m : List (String × Nat)) (k : String) : List (String × Nat) :=
  match m with
  | [] => [(k, 1)]
  | (k', v) :: rest =>
    if k' == k then (k', v + 1) :: rest else (k', v) :: bumpCount rest k

/-- Lines 121-139: when the media is a `Series` and
`extracted_series_data` has no entry for the title yet, insert the
extracted attributes; in every other case the map is untouched. -/
def maybeInsertMeta (m : List (String × SeriesData)) (mc : MediaCollection)
    (t : String) : List (String × SeriesData) :=
  match mc with
  | .series s =>
    if (List.lookup t m).isSome then m else m ++ [(t, extractSeriesData s)]
  | _ => m

/-- The mutable state of the aggregation loop: `title_episode_counts`,
`extracted_series_data` and `total_show_count`. -/
structure AggState where
  counts : List (String × Nat)
  metadata : List (String × SeriesData)
  total : Nat
deriving DecidableEq, Repr

/-- The state at the top of `main`: both maps empty, count zero. -/
def initState : AggState := ⟨[], [], 0⟩

/-- The update a counted entry performs on the state: count bump,
conditional metadata insertion, `total_show_count += 1`. -/
def applyEntry (mc : MediaCollection) (t : String) (st : AggState) : AggState :=
  { counts := bumpCount st.counts t
    metadata := maybeInsertMeta st.metadata mc t
    total := st.total + 1 }

/-- Outcome of the aggregation loop: `finished` when the `while let`
loop exits (stream exhausted or `break`); `aborted` when the `?` on
`media_collection_from_id` (line 96) propagates an error out of
`main`. -/
inductive RunOutcome where
  | finished (st : AggState)
  | aborted (e : String)
deriving DecidableEq, Repr

/-- The `while let Some(entry_result) = history_stream.next()` loop of
`main` (lines 83-147), branch for branch: limit check first, then the
stream-error arm (log and continue), media resolution (`?`: abort),
classification (`continue` on unmatched variants), cutoff `break`,
then count / metadata / total updates. -/
def runLoop (resolve : String → Except String MediaCollection)
    (limit : Option Nat) (cutoff : Option Int) :
    List (Except String HistoryEntry) → AggState → RunOutcome
  | [], st => .finished st
  | er :: rest, st =>
    if limitReached limit st.total then .finished st
    else
      match er with
      | .error _ => runLoop resolve limit cutoff rest st
      | .ok entry =>
        match resolve entry.parent_id with
        | .error e => .aborted e
        | .ok mc =>
          match titleOf mc with
          | none => runLoop resolve limit cutoff rest st
          | some title =>
            if beforeCutoff cutoff entry.date_played then .finished st
            else runLoop resolve limit cutoff rest (applyEntry mc title st)

/-- The entries the loop actually counts, in order, each with its
resolved media and title.  Mirrors the control flow of `runLoop`
(threading `total_show_count` for the limit check); the theorems below
prove it characterises the loop's final state. -/
def processedEntries (resolve : String → Except String MediaCollection)
    (limit : Option Nat) (cutoff : Option Int) :
    List (Except String HistoryEntry) → Nat →
      List (HistoryEntry × MediaCollection × String)
  | [], _ => []
  | er :: rest, total =>
    if limitReached limit total then []
    else
      match er with
      | .error _ => processedEntries resolve limit cutoff rest total
      | .ok entry =>
        match resolve entry.parent_id with
        | .error _ => []
        | .ok mc =>
          match titleOf mc with
          | none => processedEntries resolve limit cutoff rest total
          | some title =>
            if beforeCutoff cutoff entry.date_played then []
            else (entry, mc, title) ::
              processedEntries resolve limit cutoff rest (total + 1)

/-- One element of the output JSON array (lines 157-160):
`{"series": ..., "episodesWatched": ...}`. -/
structure Record where
  series : SeriesData
  episodesWatched : Nat
deriving DecidableEq, Repr

/-- Lines 153-162: one record per entry of `extracted_series_data`,
with `title_episode_counts.get(&title).cloned().unwrap_or(0)`. -/
def buildReport (counts : List (String × Nat))
    (metadata : List (String × SeriesData)) : List Record :=
  metadata.map fun p => ⟨p.2, (List.lookup p.1 counts).getD 0⟩

/-!
## Cutoff store

`read_cutoff_date` / `update_cutoff_date` (lines 14-38 and 176-186 of
`src/main.rs`).  The file system is modelled by the file's contents:
`none` for a missing file (`ErrorKind::NotFound`), `some cs` for a file
holding the characters `cs`.

The serialization itself is chrono's `Display`/`FromStr` for
`DateTime<Utc>`, an external library.  Modelled from the spec: the
cutoff file holds "a timestamp in a standard unambiguous textual
timestamp format"; a timestamp is modelled by its civil fields at
nanosecond precision, printed as
`YYYY-MM-DD HH:MM:SS[.fff[fff[fff]]] UTC` and parsed back from that
form.
-/

/-- A UTC timestamp by civil fields, nanosecond precision (the
precision of the serialized textual format). -/
structure DateTimeUtc where
  year : Nat
  month : Nat
  day : Nat
  hour : Nat
  minute : Nat
  second : Nat
  nanos : Nat
deriving DecidableEq, Repr

/-- Gregorian leap-year rule. -/
def isLeapYear (y : Nat) : Bool :=
  y % 4 == 0 && (y % 100 != 0 || y % 400 == 0)

/-- Days in a month of the proleptic Gregorian calendar. -/
def daysInMonth (y m : Nat) : Nat :=
  if m == 2 then (if isLeapYear y then 29 else 28)
  else if m == 4 || m == 6 || m == 9 || m == 11 then 30
  else 31

/-- Calendar validity of the civil fields.  Years are kept in the
four-digit range of the fixed-width textual form. -/
def DateTimeUtc.isValid (t : DateTimeUtc) : Bool :=
  t.year ≤ 9999 && 1 ≤ t.month && t.month ≤ 12 &&
  1 ≤ t.day && t.day ≤ daysInMonth t.year t.month &&
  t.hour ≤ 23 && t.minute ≤ 59 && t.second ≤ 59 && t.nanos < 1000000000

/-- Zero-padded fixed-width decimal digits of `n` (most significant
first); the textual form of every numeric timestamp field. -/
def padDigits : Nat → Nat → List Char
  | 0, _ => []
  | w + 1, n => Nat.digitChar (n / 10 ^ w) :: padDigits w (n % 10 ^ w)

/-- The fractional-second part of the textual form: empty when the
nanosecond field is zero, otherwise a dot and 3, 6 or 9 digits
(trailing zero groups elided). -/
def fracPart (nanos : Nat) : List Char :=
  if nanos == 0 then []
  else if nanos % 1000000 == 0 then '.' :: padDigits 3 (nanos / 1000000)
  else if nanos % 1000 == 0 then '.' :: padDigits 6 (nanos / 1000)
  else '.' :: padDigits 9 nanos

/-- The textual form written to the cutoff file:
`YYYY-MM-DD HH:MM:SS[.frac] UTC`. -/
def formatDateTime (t : DateTimeUtc) : List Char :=
  padDigits 4 t.year ++ '-' :: padDigits 2 t.month ++ '-' :: padDigits 2 t.day
    ++ ' ' :: padDigits 2 t.hour ++ ':' :: padDigits 2 t.minute
    ++ ':' :: padDigits 2 t.second ++ fracPart t.nanos ++ [' ', 'U', 'T', 'C']

/-- Numeric value of a decimal digit character. -/
def digitVal (c : Char) : Nat := c.toNat - 48

/-- Read exactly `w` decimal digits, accumulating their value. -/
def readFixed : Nat → Nat → List Char → Option (Nat × List Char)
  | 0, acc, cs => some (acc, cs)
  | _ + 1, _, [] => none
  | w + 1, acc, c :: cs =>
    if c.isDigit then readFixed w (acc * 10 + digitVal c) cs else none

/-- Expect one specific character. -/
def expectChar (c : Char) : List Char → Option (List Char)
  | [] => none
  | c' :: cs => if c' == c then some cs else none

/-- Read the maximal run of decimal digits. -/
def readAllDigits : List Char → List Nat × List Char
  | [] => ([], [])
  | c :: cs =>
    if c.isDigit then
      let r := readAllDigits cs
      (digitVal c :: r.1, r.2)
    else ([], c :: cs)

/-- Value of a fractional-digit run scaled to nanoseconds (the first
nine digits count). -/
def scaleNanos (ds : List Nat) : Nat :=
  ((ds.take 9).foldl (fun a d => a * 10 + d) 0) * 10 ^ (9 - min ds.length 9)

/-- Optional fractional seconds: a dot followed by at least one digit;
no dot means zero nanoseconds. -/
def readFrac (cs : List Char) : Option (Nat × List Char) :=
  match cs with
  | [] => some (0, [])
  | c :: cs' =>
    if c == '.' then
      let r := readAllDigits cs'
      if r.1.isEmpty then none else some (scaleNanos r.1, r.2)
    else some (0, c :: cs')

/-- Skip a (possibly empty) run of whitespace. -/
def skipSpaces (cs : List Char) : List Char :=
  cs.dropWhile Char.isWhitespace

/-- Modelled from the spec: the timezone designator of the standard
textual form with a UTC offset, as chrono's relaxed RFC 3339 reader
accepts it (`UTC`, `Z`, or a zero numeric offset). -/
def readZone : List Char → Option (List Char)
  | 'U' :: 'T' :: 'C' :: rest => some rest
  | 'Z' :: rest => some rest
  | '+' :: '0' :: '0' :: ':' :: '0' :: '0' :: rest => some rest
  | _ => none

/-- Modelled from the spec: parse the standard textual timestamp form
back into civil fields, validating calendar ranges. -/
def parseDateTime (cs : List Char) : Option DateTimeUtc := do
  let (y, cs) ← readFixed 4 0 cs
  let cs ← expectChar '-' cs
  let (mo, cs) ← readFixed 2 0 cs
  let cs ← expectChar '-' cs
  let (d, cs) ← readFixed 2 0 cs
  let cs ← expectChar ' ' cs
  let (h, cs) ← readFixed 2 0 cs
  let cs ← expectChar ':' cs
  let (mi, cs) ← readFixed 2 0 cs
  let cs ← expectChar ':' cs
  let (s, cs) ← readFixed 2 0 cs
  let (ns, cs) ← readFrac cs
  let cs ← readZone (skipSpaces cs)
  if skipSpaces cs = [] then
    let t : DateTimeUtc := ⟨y, mo, d, h, mi, s, ns⟩
    if t.isValid then some t else none
  else none

/-- `str::trim` on the raw file contents (line 19 of `src/main.rs`):
whitespace stripped from both ends. -/
def trimChars (cs : List Char) : List Char :=
  (((cs.dropWhile Char.isWhitespace).reverse).dropWhile Char.isWhitespace).reverse

/-- The one error `read_cutoff_date` can report on an existing,
readable file: non-empty contents that do not parse
(`ErrorKind::InvalidData`, lines 25-28). -/
inductive ReadError where
  | invalidData
deriving DecidableEq, Repr

/-- `read_cutoff_date` (lines 14-38): missing file or empty trimmed
contents yield no cutoff; malformed non-empty contents yield the
`InvalidData` error; otherwise the parsed timestamp. -/
def read_cutoff_date (file : Option (List Char)) :
    Except ReadError (Option DateTimeUtc) :=
  match file with
  | none => .ok none
  | some contents =>
    let ds := trimChars contents
    if ds.isEmpty then .ok none
    else
      match parseDateTime ds with
      | some date => .ok (some date)
      | none => .error .invalidData

/-- `update_cutoff_date` (lines 176-186): the file is truncated and
rewritten with the canonical textual form; `writeln!` appends a
newline.  Returns the new file contents. -/
def update_cutoff_date (new_cutoff : DateTimeUtc) : List Char :=
  formatDateTime new_cutoff ++ ['\n']

/-!
## Report filename

`get_unique_filename` (lines 189-199 of `src/main.rs`).  The file
system is modelled by a predicate giving `Path::exists`.  The `while`
loop of the source is unbounded search; it is embedded with explicit
fuel (`none` when the fuel runs out), as is the repeated suffix
stripping of `str::trim_end_matches`, where the string's own length
bounds the number of strips.
-/

/-- One stripping pass bounded by fuel: remove the suffix `pat` as
long as it is present (`str::trim_end_matches` semantics). -/
def stripSuffixAllAux (pat : List Char) : Nat → List Char → List Char
  | 0, s => s
  | f + 1, s =>
    if 0 < pat.length ∧ pat.length ≤ s.length ∧
        s.drop (s.length - pat.length) = pat then
      stripSuffixAllAux pat f (s.take (s.length - pat.length))
    else s

/-- `str::trim_end_matches`: repeatedly remove a trailing occurrence
of `pat`.  Each removal shortens the string, so its length is enough
fuel. -/
def trim_end_matches (s pat : String) : String :=
  ⟨stripSuffixAllAux pat.toList s.toList.length s.toList⟩

/-- The numbered candidate names `format!("{}-{}.json", stem, counter)`
(line 194). -/
def numName (stem : String) (n : Nat) : String :=
  stem ++ "-" ++ toString n ++ ".json"

/-- The `while Path::new(&new_name).exists()` loop (lines 193-196):
try `name`; while it exists, move to the next numbered candidate. -/
def uniqueLoop (fsExists : String → Bool) (stem : String) :
    Nat → Nat → String → Option String
  | 0, _, _ => none
  | fuel + 1, counter, name =>
    if fsExists name then uniqueLoop fsExists stem fuel (counter + 1) (numName stem counter)
    else some name

/-- `get_unique_filename` (lines 189-199): start from
`format!("{}.json", base.trim_end_matches(".json"))` with the counter
at 1. -/
def get_unique_filename (fsExists : String → Bool) (base : String)
    (fuel : Nat) : Option String :=
  uniqueLoop fsExists (trim_end_matches base ".json") fuel 1
    (trim_end_matches base ".json" ++ ".json")

/-- The counts map the counted entries produce by folding the
per-entry bump. -/
def countsFold (l : List (HistoryEntry × MediaCollection × String))
    (m : List (String × Nat)) : List (String × Nat) :=
  l.foldl (fun m p => bumpCount m p.2.2) m

/-- The metadata map the counted entries produce by folding the
insert-if-absent step. -/
def metaFold (l : List (HistoryEntry × MediaCollection × String))
    (m : List (String × SeriesData)) : List (String × SeriesData) :=
  l.foldl (fun m p => maybeInsertMeta m p.2.1 p.2.2) m

/-- The `Series` payload of a media object, when it is one. -/
def seriesOf : MediaCollection → Option Series
  | .series s => some s
  | _ => none

/-- The first counted occurrence of title `t` whose media is a
`Series`, if any. -/
def firstSeriesFor (t : String)
    (l : List (HistoryEntry × MediaCollection × String)) : Option Series :=
  l.findSome? fun p => if p.2.2 == t then seriesOf p.2.1 else none

/-- Decides that an entry lets the loop move on to the next entry
(neither the cutoff `break` nor the fatal `?` fires on it). -/
def entryContinues (resolve : String → Except String MediaCollection)
    (cutoff : Option Int) : Except String HistoryEntry → Bool
  | .error _ => true
  | .ok e =>
    match resolve e.parent_id with
    | .error _ => false
    | .ok mc =>
      match titleOf mc with
      | none => true
      | some _ => !beforeCutoff cutoff e.date_played

/-- The state update one non-stopping entry performs: stream errors and
unclassified media leave the state alone, classified entries are
counted. -/
def normalStep (resolve : String → Except String MediaCollection)
    (st : AggState) : Except String HistoryEntry → AggState
  | .error _ => st
  | .ok e =>
    match resolve e.parent_id with
    | .error _ => st
    | .ok mc =>
      match titleOf mc with
      | none => st
      | some t => applyEntry mc t st

/-- Every key of the metadata map is also a key of the counts map. -/
def metaKeysSubCounts (st : AggState) : Prop :=
  ∀ t, (List.lookup t st.metadata).isSome = true →
    (List.lookup t st.counts).isSome = true

/-!
Concrete evaluations of the embedded operations.
-/

example :
    runLoop (fun _ => .ok (.movie ⟨"M"⟩)) none none
      [.ok ⟨"a", 5⟩, .ok ⟨"a", 4⟩] initState
      = .finished ⟨[("M", 2)], [], 2⟩ := by decide

example :
    runLoop (fun _ => .error "boom") none none [.ok ⟨"a", 5⟩] initState
      = .aborted "boom" := by decide

example : trim_end_matches "show_data.json" ".json" = "show_data" := by decide

example :
    get_unique_filename (fun s => s == "show_data.json") "show_data.json" 3
      = some "show_data-1.json" := by decide

example :
    read_cutoff_date (some (update_cutoff_date ⟨2024, 3, 5, 10, 20, 30, 123000000⟩))
      = .ok (some ⟨2024, 3, 5, 10, 20, 30, 123000000⟩) := by rfl

example :
    read_cutoff_date (some (update_cutoff_date ⟨2025, 12, 31, 23, 59, 59, 0⟩))
      = .ok (some ⟨2025, 12, 31, 23, 59, 59, 0⟩) := by rfl

example : read_cutoff_date none = .ok none := by rfl

example : read_cutoff_date (some [' ', '\n']) = .ok none := by rfl

example : read_cutoff_date (some ['x', 'y']) = .error .invalidData := by rfl

/-!
## Lookup lemmas for the association-list maps
-/

theorem lookup_bumpCount_self (m : List (String × Nat)) (k : String) :
    List.lookup k (bumpCount m k) = some ((List.lookup k m).getD 0 + 1) := by
  induction m with
  | nil => simp [bumpCount]
  | cons p rest ih =>
    obtain ⟨a, v⟩ := p
    by_cases h : a = k
    · subst h; simp [bumpCount, List.lookup_cons]
    · simp [bumpCount, List.lookup_cons, h, beq_false_of_ne (fun hh => h hh.symm), ih]

theorem lookup_bumpCount_ne (m : List (String × Nat)) (k k' : String)
    (h : k' ≠ k) :
    List.lookup k' (bumpCount m k) = List.lookup k' m := by
  induction m with
  | nil => simp [bumpCount, List.lookup_cons, beq_false_of_ne h]
  | cons p rest ih =>
    obtain ⟨a, v⟩ := p
    by_cases ha : a = k
    · subst ha; simp [bumpCount, List.lookup_cons, beq_false_of_ne h]
    · by_cases hk : k' = a
      · subst hk; simp [bumpCount, List.lookup_cons, beq_false_of_ne ha]
      · simp [bumpCount, List.lookup_cons, beq_false_of_ne ha,
          beq_false_of_ne hk, ih]

theorem lookup_maybeInsertMeta_some (m : List (String × SeriesData))
    (mc : MediaCollection) (t' t : String) (v : SeriesData)
    (h : List.lookup t m = some v) :
    List.lookup t (maybeInsertMeta m mc t') = some v := by
  cases mc with
  | series s =>
    by_cases hc : (List.lookup t' m).isSome
    · simpa [maybeInsertMeta, hc] using h
    · simp only [maybeInsertMeta, hc, if_false, Bool.false_eq_true]
      rw [List.lookup_append, h]; rfl
  | movie m' => simpa [maybeInsertMeta] using h
  | episode e => simpa [maybeInsertMeta] using h
  | other => simpa [maybeInsertMeta] using h

theorem lookup_maybeInsertMeta_ne (m : List (String × SeriesData))
    (mc : MediaCollection) (t' t : String) (h : t ≠ t') :
    List.lookup t (maybeInsertMeta m mc t') = List.lookup t m := by
  cases mc with
  | series s =>
    by_cases hc : (List.lookup t' m).isSome
    · simp [maybeInsertMeta, hc]
    · simp only [maybeInsertMeta, hc, if_false, Bool.false_eq_true]
      rw [List.lookup_append]
      simp [List.lookup_cons, beq_false_of_ne h]
  | movie m' => simp [maybeInsertMeta]
  | episode e => simp [maybeInsertMeta]
  | other => simp [maybeInsertMeta]

theorem lookup_maybeInsertMeta_new (m : List (String × SeriesData))
    (s : Series) (t : String) (h : List.lookup t m = none) :
    List.lookup t (maybeInsertMeta m (.series s) t)
      = some (extractSeriesData s) := by
  simp only [maybeInsertMeta, h, Option.isSome_none, Bool.false_eq_true, if_false]
  rw [List.lookup_append, h]
  simp

theorem lookup_maybeInsertMeta_isSome (m : List (String × SeriesData))
    (mc : MediaCollection) (t t' : String)
    (h : (List.lookup t' (maybeInsertMeta m mc t)).isSome = true) :
    (List.lookup t' m).isSome = true ∨ t' = t := by
  by_cases he : t' = t
  · exact Or.inr he
  · rw [lookup_maybeInsertMeta_ne m mc t t' he] at h
    exact Or.inl h

theorem lookup_mem {α : Type} (m : List (String × α)) (k : String) (v : α)
    (h : List.lookup k m = some v) : (k, v) ∈ m := by
  induction m with
  | nil => simp at h
  | cons p rest ih =>
    obtain ⟨a, w⟩ := p
    by_cases hk : k = a
    · subst hk
      simp only [List.lookup_cons_self, Option.some.injEq] at h
      simp [h]
    · rw [List.lookup_cons] at h
      rw [beq_false_of_ne hk] at h
      exact List.mem_cons_of_mem _ (ih h)

theorem mem_lookup_of_nodupKeys {α : Type} (m : List (String × α))
    (hk : (m.map Prod.fst).Nodup) (k : String) (v : α) (h : (k, v) ∈ m) :
    List.lookup k m = some v := by
  induction m with
  | nil => simp at h
  | cons p rest ih =>
    obtain ⟨a, w⟩ := p
    simp only [List.map_cons, List.nodup_cons] at hk
    rcases List.mem_cons.mp h with h1 | h1
    · obtain ⟨rfl, rfl⟩ := Prod.mk.injEq .. ▸ h1
      simp
    · have hne : k ≠ a := by
        rintro rfl
        exact hk.1 (List.mem_map.mpr ⟨(k, v), h1, rfl⟩)
      rw [List.lookup_cons, beq_false_of_ne hne]
      exact ih hk.2 h1

/-!
## Characterisation of the aggregation loop
-/

theorem runLoop_nil {resolve : String → Except String MediaCollection}
    {limit : Option Nat} {cutoff : Option Int} {st : AggState} :
    runLoop resolve limit cutoff [] st = .finished st := rfl

theorem runLoop_cons_limit {resolve : String → Except String MediaCollection}
    {limit : Option Nat} {cutoff : Option Int} {st : AggState}
    {er : Except String HistoryEntry} {rest : List (Except String HistoryEntry)}
    (h : limitReached limit st.total = true) :
    runLoop resolve limit cutoff (er :: rest) st = .finished st := by
  cases er <;> simp [runLoop, h]

theorem runLoop_cons_err {resolve : String → Except String MediaCollection}
    {limit : Option Nat} {cutoff : Option Int} {st : AggState} {e : String}
    {rest : List (Except String HistoryEntry)}
    (h : limitReached limit st.total = false) :
    runLoop resolve limit cutoff (.error e :: rest) st
      = runLoop resolve limit cutoff rest st := by
  simp [runLoop, h]

theorem runLoop_cons_abort {resolve : String → Except String MediaCollection}
    {limit : Option Nat} {cutoff : Option Int} {st : AggState}
    {entry : HistoryEntry} {rest : List (Except String HistoryEntry)} {e : String}
    (h : limitReached limit st.total = false)
    (hres : resolve entry.parent_id = .error e) :
    runLoop resolve limit cutoff (.ok entry :: rest) st = .aborted e := by
  simp [runLoop, h, hres]

theorem runLoop_cons_skip {resolve : String → Except String MediaCollection}
    {limit : Option Nat} {cutoff : Option Int} {st : AggState}
    {entry : HistoryEntry} {rest : List (Except String HistoryEntry)}
    {mc : MediaCollection}
    (h : limitReached limit st.total = false)
    (hres : resolve entry.parent_id = .ok mc) (ht : titleOf mc = none) :
    runLoop resolve limit cutoff (.ok entry :: rest) st
      = runLoop resolve limit cutoff rest st := by
  simp [runLoop, h, hres, ht]

theorem runLoop_cons_stop {resolve : String → Except String MediaCollection}
    {limit : Option Nat} {cutoff : Option Int} {st : AggState}
    {entry : HistoryEntry} {rest : List (Except String HistoryEntry)}
    {mc : MediaCollection} {t : String}
    (h : limitReached limit st.total = false)
    (hres : resolve entry.parent_id = .ok mc) (ht : titleOf mc = some t)
    (hb : beforeCutoff cutoff entry.date_played = true) :
    runLoop resolve limit cutoff (.ok entry :: rest) st = .finished st := by
  simp [runLoop, h, hres, ht, hb]

theorem runLoop_cons_count {resolve : String → Except String MediaCollection}
    {limit : Option Nat} {cutoff : Option Int} {st : AggState}
    {entry : HistoryEntry} {rest : List (Except String HistoryEntry)}
    {mc : MediaCollection} {t : String}
    (h : limitReached limit st.total = false)
    (hres : resolve entry.parent_id = .ok mc) (ht : titleOf mc = some t)
    (hb : beforeCutoff cutoff entry.date_played = false) :
    runLoop resolve limit cutoff (.ok entry :: rest) st
      = runLoop resolve limit cutoff rest (applyEntry mc t st) := by
  simp [runLoop, h, hres, ht, hb]

theorem processedEntries_nil {resolve : String → Except String MediaCollection}
    {limit : Option Nat} {cutoff : Option Int} {total : Nat} :
    processedEntries resolve limit cutoff [] total = [] := rfl

theorem processedEntries_cons_limit {resolve : String → Except String MediaCollection}
    {limit : Option Nat} {cutoff : Option Int} {total : Nat}
    {er : Except String HistoryEntry} {rest : List (Except String HistoryEntry)}
    (h : limitReached limit total = true) :
    processedEntries resolve limit cutoff (er :: rest) total = [] := by
  cases er <;> simp [processedEntries, h]

theorem processedEntries_cons_err {resolve : String → Except String MediaCollection}
    {limit : Option Nat} {cutoff : Option Int} {total : Nat} {e : String}
    {rest : List (Except String HistoryEntry)}
    (h : limitReached limit total = false) :
    processedEntries resolve limit cutoff (.error e :: rest) total
      = processedEntries resolve limit cutoff rest total := by
  simp [processedEntries, h]

theorem processedEntries_cons_abort {resolve : String → Except String MediaCollection}
    {limit : Option Nat} {cutoff : Option Int} {total : Nat}
    {entry : HistoryEntry} {rest : List (Except String HistoryEntry)} {e : String}
    (h : limitReached limit total = false)
    (hres : resolve entry.parent_id = .error e) :
    processedEntries resolve limit cutoff (.ok entry :: rest) total = [] := by
  simp [processedEntries, h, hres]

theorem processedEntries_cons_skip {resolve : String → Except String MediaCollection}
    {limit : Option Nat} {cutoff : Option Int} {total : Nat}
    {entry : HistoryEntry} {rest : List (Except String HistoryEntry)}
    {mc : MediaCollection}
    (h : limitReached limit total = false)
    (hres : resolve entry.parent_id = .ok mc) (ht : titleOf mc = none) :
    processedEntries resolve limit cutoff (.ok entry :: rest) total
      = processedEntries resolve limit cutoff rest total := by
  simp [processedEntries, h, hres, ht]

theorem processedEntries_cons_stop {resolve : String → Except String MediaCollection}
    {limit : Option Nat} {cutoff : Option Int} {total : Nat}
    {entry : HistoryEntry} {rest : List (Except String HistoryEntry)}
    {mc : MediaCollection} {t : String}
    (h : limitReached limit total = false)
    (hres : resolve entry.parent_id = .ok mc) (ht : titleOf mc = some t)
    (hb : beforeCutoff cutoff entry.date_played = true) :
    processedEntries resolve limit cutoff (.ok entry :: rest) total = [] := by
  simp [processedEntries, h, hres, ht, hb]

theorem processedEntries_cons_count {resolve : String → Except String MediaCollection}
    {limit : Option Nat} {cutoff : Option Int} {total : Nat}
    {entry : HistoryEntry} {rest : List (Except String HistoryEntry)}
    {mc : MediaCollection} {t : String}
    (h : limitReached limit total = false)
    (hres : resolve entry.parent_id = .ok mc) (ht : titleOf mc = some t)
    (hb : beforeCutoff cutoff entry.date_played = false) :
    processedEntries resolve limit cutoff (.ok entry :: rest) total
      = (entry, mc, t) :: processedEntries resolve limit cutoff rest (total + 1) := by
  simp [processedEntries, h, hres, ht, hb]

theorem processedEntries_sound (resolve : String → Except String MediaCollection)
    (limit : Option Nat) (cutoff : Option Int) :
    ∀ (entries : List (Except String HistoryEntry)) (total : Nat) p,
      p ∈ processedEntries resolve limit cutoff entries total →
      resolve p.1.parent_id = .ok p.2.1 ∧ titleOf p.2.1 = some p.2.2 ∧
        beforeCutoff cutoff p.1.date_played = false := by
  intro entries
  induction entries with
  | nil => intro total p hp; simp [processedEntries_nil] at hp
  | cons er rest ih =>
    intro total p hp
    cases hl : limitReached limit total with
    | true => rw [processedEntries_cons_limit hl] at hp; simp at hp
    | false =>
      cases er with
      | error e =>
        rw [processedEntries_cons_err hl] at hp
        exact ih total p hp
      | ok entry =>
        cases hres : resolve entry.parent_id with
        | error e => rw [processedEntries_cons_abort hl hres] at hp; simp at hp
        | ok mc =>
          cases ht : titleOf mc with
          | none =>
            rw [processedEntries_cons_skip hl hres ht] at hp
            exact ih total p hp
          | some ttl =>
            cases hb : beforeCutoff cutoff entry.date_played with
            | true =>
              rw [processedEntries_cons_stop hl hres ht hb] at hp
              simp at hp
            | false =>
              rw [processedEntries_cons_count hl hres ht hb] at hp
              rcases List.mem_cons.mp hp with h | h
              · subst h
                exact ⟨hres, ht, hb⟩
              · exact ih _ p h

theorem runLoop_finished_eq (resolve : String → Except String MediaCollection)
    (limit : Option Nat) (cutoff : Option Int) :
    ∀ (entries : List (Except String HistoryEntry)) (st st' : AggState),
      runLoop resolve limit cutoff entries st = .finished st' →
      st' = ⟨countsFold (processedEntries resolve limit cutoff entries st.total) st.counts,
             metaFold (processedEntries resolve limit cutoff entries st.total) st.metadata,
             st.total + (processedEntries resolve limit cutoff entries st.total).length⟩ := by
  intro entries
  induction entries with
  | nil =>
    intro st st' h
    rw [runLoop_nil] at h
    cases h
    simp [processedEntries_nil, countsFold, metaFold]
  | cons er rest ih =>
    intro st st' h
    cases hl : limitReached limit st.total with
    | true =>
      rw [runLoop_cons_limit hl] at h
      cases h
      rw [processedEntries_cons_limit hl]
      simp [countsFold, metaFold]
    | false =>
      cases er with
      | error e =>
        rw [runLoop_cons_err hl] at h
        rw [processedEntries_cons_err hl]
        exact ih st st' h
      | ok entry =>
        cases hres : resolve entry.parent_id with
        | error e => rw [runLoop_cons_abort hl hres] at h; cases h
        | ok mc =>
          cases ht : titleOf mc with
          | none =>
            rw [runLoop_cons_skip hl hres ht] at h
            rw [processedEntries_cons_skip hl hres ht]
            exact ih st st' h
          | some ttl =>
            cases hb : beforeCutoff cutoff entry.date_played with
            | true =>
              rw [runLoop_cons_stop hl hres ht hb] at h
              cases h
              rw [processedEntries_cons_stop hl hres ht hb]
              simp [countsFold, metaFold]
            | false =>
              rw [runLoop_cons_count hl hres ht hb] at h
              rw [processedEntries_cons_count hl hres ht hb]
              have := ih (applyEntry mc ttl st) st' h
              rw [this]
              simp only [applyEntry, countsFold, metaFold, List.foldl_cons,
                List.length_cons]
              refine AggState.mk.injEq .. ▸ ⟨rfl, rfl, by omega⟩

theorem lookup_countsFold (l : List (HistoryEntry × MediaCollection × String))
    (m : List (String × Nat)) (t : String) :
    (List.lookup t (countsFold l m)).getD 0 =
      (List.lookup t m).getD 0 + (l.filter (fun p => p.2.2 == t)).length := by
  induction l generalizing m with
  | nil => simp [countsFold]
  | cons p rest ih =>
    simp only [countsFold, List.foldl_cons, List.filter_cons] at *
    by_cases h : p.2.2 = t
    · rw [ih]
      subst h
      rw [lookup_bumpCount_self]
      simp
      omega
    · rw [ih, lookup_bumpCount_ne _ _ _ (fun hh => h hh.symm)]
      simp [beq_false_of_ne h]

theorem lookup_metaFold (l : List (HistoryEntry × MediaCollection × String))
    (m : List (String × SeriesData)) (t : String) :
    List.lookup t (metaFold l m) =
      (List.lookup t m).or ((firstSeriesFor t l).map extractSeriesData) := by
  induction l generalizing m with
  | nil => simp [metaFold, firstSeriesFor]
  | cons p rest ih =>
    simp only [metaFold, List.foldl_cons] at *
    rw [ih]
    by_cases hm : p.2.2 = t
    · cases hs : seriesOf p.2.1 with
      | none =>
        have hmc : maybeInsertMeta m p.2.1 p.2.2 = m := by
          cases hmc' : p.2.1 <;> simp [maybeInsertMeta]
          · rw [hmc'] at hs; simp [seriesOf] at hs
        rw [hmc]
        have : firstSeriesFor t (p :: rest) = firstSeriesFor t rest := by
          simp [firstSeriesFor, List.findSome?_cons, hm, hs]
        rw [this]
      | some s =>
        have hmc' : p.2.1 = .series s := by
          cases hx : p.2.1 <;> rw [hx] at hs <;> simp [seriesOf] at hs
          rw [hs]
        have hfirst : firstSeriesFor t (p :: rest) = some s := by
          simp [firstSeriesFor, List.findSome?_cons, hm, hs]
        rw [hfirst]
        subst hm
        cases hl : List.lookup p.2.2 m with
        | some v =>
          rw [lookup_maybeInsertMeta_some m p.2.1 p.2.2 p.2.2 v hl]
          rfl
        | none =>
          rw [hmc', lookup_maybeInsertMeta_new m s p.2.2 hl]
          rfl
    · have h1 : List.lookup t (maybeInsertMeta m p.2.1 p.2.2) = List.lookup t m :=
        lookup_maybeInsertMeta_ne m p.2.1 p.2.2 t (fun hh => hm hh.symm)
      rw [h1]
      have h2 : firstSeriesFor t (p :: rest) = firstSeriesFor t rest := by
        simp [firstSeriesFor, List.findSome?_cons, hm]
      rw [h2]

theorem runLoop_append_of_continues (resolve : String → Except String MediaCollection)
    (cutoff : Option Int) :
    ∀ (pre tail : List (Except String HistoryEntry)) (st : AggState),
      (∀ x ∈ pre, entryContinues resolve cutoff x = true) →
      runLoop resolve none cutoff (pre ++ tail) st
        = runLoop resolve none cutoff tail (pre.foldl (normalStep resolve) st) := by
  intro pre
  induction pre with
  | nil => intro tail st _; simp
  | cons x rest ih =>
    intro tail st hall
    have hx := hall x (List.mem_cons_self x rest)
    have hrest : ∀ y ∈ rest, entryContinues resolve cutoff y = true :=
      fun y hy => hall y (List.mem_cons_of_mem x hy)
    have hl : limitReached none st.total = false := rfl
    rw [List.cons_append, List.foldl_cons]
    cases x with
    | error e =>
      rw [runLoop_cons_err hl]
      rw [show normalStep resolve st (.error e) = st from rfl]
      exact ih tail st hrest
    | ok entry =>
      cases hres : resolve entry.parent_id with
      | error e => simp [entryContinues, hres] at hx
      | ok mc =>
        cases ht : titleOf mc with
        | none =>
          rw [runLoop_cons_skip hl hres ht]
          rw [show normalStep resolve st (.ok entry) = st by
            simp [normalStep, hres, ht]]
          exact ih tail st hrest
        | some t =>
          have hb : beforeCutoff cutoff entry.date_played = false := by
            simp [entryContinues, hres, ht] at hx
            exact hx
          rw [runLoop_cons_count hl hres ht hb]
          rw [show normalStep resolve st (.ok entry) = applyEntry mc t st by
            simp [normalStep, hres, ht]]
          exact ih tail (applyEntry mc t st) hrest

/-!
## Round trip of the cutoff textual form
-/

theorem digitChar_isDigit : ∀ d < 10, (Nat.digitChar d).isDigit = true := by decide

theorem digitVal_digitChar : ∀ d < 10, digitVal (Nat.digitChar d) = d := by decide

theorem digitChar_not_ws : ∀ d < 10, (Nat.digitChar d).isWhitespace = false := by
  decide

theorem padDigits_length (w : Nat) : ∀ n, (padDigits w n).length = w := by
  induction w with
  | zero => intro n; rfl
  | succ w ih => intro n; simp [padDigits, ih]

theorem padDigits_all_digits (w : Nat) :
    ∀ n, n < 10 ^ w → ∀ c ∈ padDigits w n, c.isDigit = true := by
  induction w with
  | zero => intro n _ c hc; simp [padDigits] at hc
  | succ w ih =>
    intro n hn c hc
    have hp : 0 < 10 ^ w := Nat.pos_pow_of_pos w (by norm_num)
    rcases List.mem_cons.mp hc with h | h
    · subst h
      exact digitChar_isDigit _ ((Nat.div_lt_iff_lt_mul hp).mpr (by
        rw [Nat.pow_succ] at hn; omega))
    · exact ih (n % 10 ^ w) (Nat.mod_lt _ hp) c h

theorem readFixed_padDigits (w : Nat) :
    ∀ (n acc : Nat) (rest : List Char), n < 10 ^ w →
      readFixed w acc (padDigits w n ++ rest) = some (acc * 10 ^ w + n, rest) := by
  induction w with
  | zero =>
    intro n acc rest h
    interval_cases n
    simp [padDigits, readFixed]
  | succ w ih =>
    intro n acc rest h
    have hp : 0 < 10 ^ w := Nat.pos_pow_of_pos w (by norm_num)
    have hd : n / 10 ^ w < 10 := (Nat.div_lt_iff_lt_mul hp).mpr (by
      rw [Nat.pow_succ] at h; omega)
    simp only [padDigits, List.cons_append, readFixed, digitChar_isDigit _ hd,
      if_true, digitVal_digitChar _ hd, List.append_eq]
    rw [ih (n % 10 ^ w) _ rest (Nat.mod_lt _ hp)]
    have hmod := Nat.div_add_mod n (10 ^ w)
    congr 2
    conv_rhs => rw [Nat.pow_succ, ← hmod]
    ring

theorem foldl_digitVal_padDigits (w : Nat) :
    ∀ (n acc : Nat), n < 10 ^ w →
      ((padDigits w n).map digitVal).foldl (fun a d => a * 10 + d) acc
        = acc * 10 ^ w + n := by
  induction w with
  | zero =>
    intro n acc h
    interval_cases n
    simp [padDigits]
  | succ w ih =>
    intro n acc h
    have hp : 0 < 10 ^ w := Nat.pos_pow_of_pos w (by norm_num)
    have hd : n / 10 ^ w < 10 := (Nat.div_lt_iff_lt_mul hp).mpr (by
      rw [Nat.pow_succ] at h; omega)
    simp only [padDigits, List.map_cons, List.foldl_cons, digitVal_digitChar _ hd]
    rw [ih (n % 10 ^ w) _ (Nat.mod_lt _ hp)]
    have hmod := Nat.div_add_mod n (10 ^ w)
    conv_rhs => rw [Nat.pow_succ, ← hmod]
    ring

theorem readAllDigits_append (l : List Char) (c : Char) (rest : List Char)
    (hl : ∀ x ∈ l, x.isDigit = true) (hc : c.isDigit = false) :
    readAllDigits (l ++ c :: rest) = (l.map digitVal, c :: rest) := by
  induction l with
  | nil => simp [readAllDigits, hc]
  | cons a l ih =>
    have ha := hl a (List.mem_cons_self a l)
    have ih' := ih fun x hx => hl x (List.mem_cons_of_mem a hx)
    simp [readAllDigits, ha, ih']

theorem scaleNanos_padDigits (k v : Nat) (hk : k ≤ 9) (hv : v < 10 ^ k) :
    scaleNanos ((padDigits k v).map digitVal) = v * 10 ^ (9 - k) := by
  have hlen : ((padDigits k v).map digitVal).length = k := by
    simp [padDigits_length]
  rw [scaleNanos, List.take_of_length_le (by omega), hlen,
    foldl_digitVal_padDigits k v 0 hv]
  simp [Nat.min_eq_left hk]

theorem padDigits_map_not_isEmpty (w n : Nat) (h : 0 < w) :
    ((padDigits w n).map digitVal).isEmpty = false := by
  cases w with
  | zero => omega
  | succ w => simp [padDigits]

theorem readFrac_fracPart (nanos : Nat) (rest : List Char)
    (h : nanos < 1000000000) :
    readFrac (fracPart nanos ++ ' ' :: rest) = some (nanos, ' ' :: rest) := by
  by_cases h0 : nanos = 0
  · subst h0
    simp [fracPart, readFrac]
  · by_cases h6 : nanos % 1000000 = 0
    · have hv : nanos / 1000000 < 10 ^ 3 := by norm_num; omega
      have hall := padDigits_all_digits 3 _ hv
      rw [fracPart, if_neg (by simpa using h0), if_pos (by simpa using h6)]
      simp only [List.cons_append, readFrac, beq_self_eq_true, if_true]
      rw [readAllDigits_append _ ' ' rest hall (by decide)]
      simp only [padDigits_map_not_isEmpty 3 _ (by norm_num), Bool.false_eq_true,
        if_false, scaleNanos_padDigits 3 _ (by norm_num) hv]
      have : nanos / 1000000 * 10 ^ (9 - 3) = nanos := by
        have := Nat.div_mul_cancel (Nat.dvd_of_mod_eq_zero h6)
        norm_num
        omega
      rw [this]
    · by_cases h3 : nanos % 1000 = 0
      · have hv : nanos / 1000 < 10 ^ 6 := by norm_num; omega
        have hall := padDigits_all_digits 6 _ hv
        rw [fracPart, if_neg (by simpa using h0), if_neg (by simpa using h6),
          if_pos (by simpa using h3)]
        simp only [List.cons_append, readFrac, beq_self_eq_true, if_true]
        rw [readAllDigits_append _ ' ' rest hall (by decide)]
        simp only [padDigits_map_not_isEmpty 6 _ (by norm_num), Bool.false_eq_true,
          if_false, scaleNanos_padDigits 6 _ (by norm_num) hv]
        have : nanos / 1000 * 10 ^ (9 - 6) = nanos := by
          have := Nat.div_mul_cancel (Nat.dvd_of_mod_eq_zero h3)
          norm_num
          omega
        rw [this]
      · have hv : nanos < 10 ^ 9 := by norm_num; omega
        have hall := padDigits_all_digits 9 _ hv
        rw [fracPart, if_neg (by simpa using h0), if_neg (by simpa using h6),
          if_neg (by simpa using h3)]
        simp only [List.cons_append, readFrac, beq_self_eq_true, if_true]
        rw [readAllDigits_append _ ' ' rest hall (by decide)]
        simp only [padDigits_map_not_isEmpty 9 _ (by norm_num), Bool.false_eq_true,
          if_false, scaleNanos_padDigits 9 _ (by norm_num) hv]
        simp

theorem daysInMonth_le (y m : Nat) : daysInMonth y m ≤ 31 := by
  rw [daysInMonth]
  split
  · split <;> omega
  · split <;> omega

theorem isValid_bounds (t : DateTimeUtc) (hv : t.isValid = true) :
    t.year ≤ 9999 ∧ t.month ≤ 12 ∧ t.day ≤ 31 ∧ t.hour ≤ 23 ∧
      t.minute ≤ 59 ∧ t.second ≤ 59 ∧ t.nanos < 1000000000 := by
  have hdm := daysInMonth_le t.year t.month
  simp only [DateTimeUtc.isValid, Bool.and_eq_true, decide_eq_true_eq,
    and_assoc] at hv
  obtain ⟨h1, h2, h3, h4, h5, h6, h7, h8, h9⟩ := hv
  exact ⟨h1, h3, by omega, h6, h7, h8, h9⟩

theorem skipSpaces_utc : skipSpaces (' ' :: ['U', 'T', 'C']) = ['U', 'T', 'C'] :=
  rfl

theorem readZone_utc : readZone ['U', 'T', 'C'] = some [] := rfl

theorem skipSpaces_nil : skipSpaces [] = [] := rfl

theorem parseDateTime_formatDateTime (t : DateTimeUtc) (hv : t.isValid = true) :
    parseDateTime (formatDateTime t) = some t := by
  obtain ⟨h1, h2, h3, h4, h5, h6, h7⟩ := isValid_bounds t hv
  have hy : t.year < 10 ^ 4 := by norm_num; omega
  have hmo : t.month < 10 ^ 2 := by norm_num; omega
  have hd : t.day < 10 ^ 2 := by norm_num; omega
  have hh : t.hour < 10 ^ 2 := by norm_num; omega
  have hmi : t.minute < 10 ^ 2 := by norm_num; omega
  have hs : t.second < 10 ^ 2 := by norm_num; omega
  have E4 : ∀ rest, readFixed 4 0 (padDigits 4 t.year ++ rest)
      = some (t.year, rest) := fun rest => by
    rw [readFixed_padDigits 4 t.year 0 rest hy]; norm_num
  have Emo : ∀ rest, readFixed 2 0 (padDigits 2 t.month ++ rest)
      = some (t.month, rest) := fun rest => by
    rw [readFixed_padDigits 2 t.month 0 rest hmo]; norm_num
  have Ed : ∀ rest, readFixed 2 0 (padDigits 2 t.day ++ rest)
      = some (t.day, rest) := fun rest => by
    rw [readFixed_padDigits 2 t.day 0 rest hd]; norm_num
  have Eh : ∀ rest, readFixed 2 0 (padDigits 2 t.hour ++ rest)
      = some (t.hour, rest) := fun rest => by
    rw [readFixed_padDigits 2 t.hour 0 rest hh]; norm_num
  have Emi : ∀ rest, readFixed 2 0 (padDigits 2 t.minute ++ rest)
      = some (t.minute, rest) := fun rest => by
    rw [readFixed_padDigits 2 t.minute 0 rest hmi]; norm_num
  have Es : ∀ rest, readFixed 2 0 (padDigits 2 t.second ++ rest)
      = some (t.second, rest) := fun rest => by
    rw [readFixed_padDigits 2 t.second 0 rest hs]; norm_num
  have EF : ∀ rest, readFrac (fracPart t.nanos ++ ' ' :: rest)
      = some (t.nanos, ' ' :: rest) := fun rest => readFrac_fracPart t.nanos rest h7
  have heta : (⟨t.year, t.month, t.day, t.hour, t.minute, t.second,
      t.nanos⟩ : DateTimeUtc) = t := rfl
  rw [parseDateTime, formatDateTime]
  simp only [List.append_assoc, List.cons_append, Option.bind_eq_bind,
    Option.some_bind, E4, Emo, Ed, Eh, Emi, Es, EF, expectChar,
    beq_self_eq_true, if_true, skipSpaces_utc, readZone_utc, skipSpaces_nil]
  rw [heta, if_pos hv]

theorem trimChars_of_shape (c : Char) (l l' : List Char) (d : Char)
    (hshape : c :: l = l' ++ [d])
    (hcws : c.isWhitespace = false) (hdws : d.isWhitespace = false) :
    trimChars ((c :: l) ++ ['\n']) = c :: l := by
  have hnl : Char.isWhitespace '\n' = true := rfl
  rw [trimChars, List.cons_append, List.dropWhile_cons, hcws]
  simp only [Bool.false_eq_true, if_false]
  rw [← List.cons_append, hshape]
  simp only [List.reverse_append, List.reverse_cons, List.reverse_nil,
    List.nil_append, List.singleton_append, List.cons_append,
    List.append_assoc, List.dropWhile_cons, hnl, if_true, hdws,
    Bool.false_eq_true, if_false, List.reverse_reverse]

theorem formatDateTime_head (t : DateTimeUtc) :
    ∃ l, formatDateTime t = Nat.digitChar (t.year / 1000) :: l := by
  rw [formatDateTime]
  rw [show padDigits 4 t.year
      = Nat.digitChar (t.year / 1000) :: padDigits 3 (t.year % 1000) from by
    norm_num [padDigits]]
  simp only [List.cons_append, List.append_assoc]
  exact ⟨_, rfl⟩

theorem formatDateTime_last (t : DateTimeUtc) :
    ∃ l, formatDateTime t = l ++ ['C'] := by
  rw [formatDateTime]
  refine ⟨padDigits 4 t.year ++ '-' :: padDigits 2 t.month ++
    '-' :: padDigits 2 t.day ++ ' ' :: padDigits 2 t.hour ++
    ':' :: padDigits 2 t.minute ++ ':' :: padDigits 2 t.second ++
    fracPart t.nanos ++ [' ', 'U', 'T'], ?_⟩
  simp

theorem trimChars_formatDateTime (t : DateTimeUtc) (hy : t.year ≤ 9999) :
    trimChars (formatDateTime t ++ ['\n']) = formatDateTime t := by
  obtain ⟨l1, hl1⟩ := formatDateTime_head t
  obtain ⟨l2, hl2⟩ := formatDateTime_last t
  have hd10 : t.year / 1000 < 10 := by omega
  rw [hl1]
  exact trimChars_of_shape _ l1 l2 'C' (hl1 ▸ hl2)
    (digitChar_not_ws _ hd10) (by decide)

theorem uniqueLoop_free (fsExists : String → Bool) (stem : String) :
    ∀ (d c fuel : Nat), d < fuel →
      (∀ i, i < d → fsExists (numName stem (c + i)) = true) →
      fsExists (numName stem (c + d)) = false →
      uniqueLoop fsExists stem fuel (c + 1) (numName stem c)
        = some (numName stem (c + d)) := by
  intro d
  induction d with
  | zero =>
    intro c fuel hf _ hfree
    cases fuel with
    | zero => omega
    | succ f =>
      rw [uniqueLoop]
      rw [show c + 0 = c from rfl] at hfree
      rw [hfree]
      simp
  | succ d ih =>
    intro c fuel hf hall hfree
    cases fuel with
    | zero => omega
    | succ f =>
      have h0 : fsExists (numName stem c) = true := by
        have := hall 0 (by omega)
        simpa using this
      rw [uniqueLoop, h0]
      simp only [if_true]
      have := ih (c + 1) f (by omega)
        (fun i hi => by
          have hx := hall (i + 1) (by omega)
          rw [show c + (i + 1) = c + 1 + i from by omega] at hx
          exact hx)
        (by rw [show c + 1 + d = c + (d + 1) from by omega]; exact hfree)
      rw [show c + (d + 1) = c + 1 + d from by omega]
      exact this

/-!
## Claims
-/

/-- C1, as stated, is false of the code: at a concrete input whose
media resolution fails, the run is aborted (the `?` on line 96
propagates), the entry is not skipped and the loop does not continue to
the next entry. -/
theorem C1_counterexample :
    runLoop (fun _ => .error "lookup failed") none none
      [.ok ⟨"a", 10⟩, .ok ⟨"b", 9⟩] initState = .aborted "lookup failed" := rfl

/-- C1 (amended): a failure resolving a processed entry's media aborts
the entire run (the resolution error propagates out of the loop; the
entry is not counted and no later entry is processed); only a failure
of the history stream to yield an entry is skipped, with the loop
continuing to the next entry. -/
theorem C1_amended (resolve : String → Except String MediaCollection)
    (limit : Option Nat) (cutoff : Option Int) (entry : HistoryEntry)
    (rest : List (Except String HistoryEntry)) (st : AggState) (e err : String)
    (hlim : limitReached limit st.total = false)
    (hres : resolve entry.parent_id = .error e) :
    runLoop resolve limit cutoff (.ok entry :: rest) st = .aborted e ∧
    runLoop resolve limit cutoff (.error err :: rest) st
      = runLoop resolve limit cutoff rest st :=
  ⟨runLoop_cons_abort hlim hres, runLoop_cons_err hlim⟩

/-- Witness for C1 (amended) at a concrete input. -/
theorem C1_amended_witness :
    runLoop (fun _ => (.error "boom" : Except String MediaCollection)) none none
        [.ok ⟨"a", 10⟩] initState = .aborted "boom" ∧
    runLoop (fun _ => (.error "boom" : Except String MediaCollection)) none none
        [.error "s"] initState
      = runLoop (fun _ => (.error "boom" : Except String MediaCollection))
          none none [] initState :=
  C1_amended (fun _ => .error "boom") none none ⟨"a", 10⟩ [] initState
    "boom" "s" rfl rfl

/-- C2: with a configured cutoff, the first classified entry whose
play timestamp is strictly earlier than the cutoff terminates the scan
at once: the run finishes with exactly the state produced by the
entries before it (so the stopping entry is neither counted nor has
metadata stored, and nothing after it is processed), while all earlier
entries are processed normally. -/
theorem C2_cutoff_stop (resolve : String → Except String MediaCollection)
    (c : Int) (pre post : List (Except String HistoryEntry))
    (stopE : HistoryEntry) (mc : MediaCollection) (t : String) (st : AggState)
    (hpre : ∀ x ∈ pre, entryContinues resolve (some c) x = true)
    (hres : resolve stopE.parent_id = .ok mc)
    (ht : titleOf mc = some t)
    (hdate : stopE.date_played < c) :
    runLoop resolve none (some c) (pre ++ .ok stopE :: post) st
      = .finished (pre.foldl (normalStep resolve) st) := by
  rw [runLoop_append_of_continues resolve (some c) pre (.ok stopE :: post) st hpre]
  exact runLoop_cons_stop rfl hres ht (by simp [beforeCutoff, hdate])

/-- Witness for C2 at a concrete input. -/
theorem C2_witness :
    (∀ x ∈ [(.ok ⟨"x", 7⟩ : Except String HistoryEntry), .error "s"],
      entryContinues (fun _ => .ok (.movie ⟨"M"⟩)) (some 5) x = true) ∧
    ((3 : Int) < 5) ∧
    runLoop (fun _ => .ok (.movie ⟨"M"⟩)) none (some 5)
        ([.ok ⟨"x", 7⟩, .error "s"] ++ .ok ⟨"y", 3⟩ :: [.ok ⟨"z", 9⟩]) initState
      = .finished
          (([(.ok ⟨"x", 7⟩ : Except String HistoryEntry), .error "s"]).foldl
            (normalStep (fun _ => .ok (.movie ⟨"M"⟩))) initState) :=
  ⟨by decide, by decide,
    C2_cutoff_stop (fun _ => .ok (.movie ⟨"M"⟩)) 5 [.ok ⟨"x", 7⟩, .error "s"]
      [.ok ⟨"z", 9⟩] ⟨"y", 3⟩ (.movie ⟨"M"⟩) "M" initState (by decide) rfl rfl
      (by decide)⟩

/-- C3: when the scan finishes, each title's count equals the number
of entries the loop counted for that title, and every counted entry
has successfully resolved media, a classified title, and a play
timestamp not before the cutoff; counts start from the empty map. -/
theorem C3_counts (resolve : String → Except String MediaCollection)
    (limit : Option Nat) (cutoff : Option Int)
    (entries : List (Except String HistoryEntry)) (st' : AggState)
    (h : runLoop resolve limit cutoff entries initState = .finished st')
    (t : String) :
    (List.lookup t st'.counts).getD 0
      = ((processedEntries resolve limit cutoff entries 0).filter
          (fun p => p.2.2 == t)).length ∧
    ∀ p ∈ processedEntries resolve limit cutoff entries 0,
      resolve p.1.parent_id = .ok p.2.1 ∧ titleOf p.2.1 = some p.2.2 ∧
        beforeCutoff cutoff p.1.date_played = false := by
  constructor
  · have heq := runLoop_finished_eq resolve limit cutoff entries initState st' h
    rw [heq]
    simp only [initState]
    rw [lookup_countsFold]
    simp
  · exact processedEntries_sound resolve limit cutoff entries 0

/-- Witness for C3 at a concrete run. -/
theorem C3_witness :
    runLoop (fun _ => .ok (.movie ⟨"M"⟩)) none none
        [.ok ⟨"a", 1⟩, .ok ⟨"b", 2⟩] initState
      = .finished ⟨[("M", 2)], [], 2⟩ ∧
    ((List.lookup "M" (⟨[("M", 2)], [], 2⟩ : AggState).counts).getD 0
        = ((processedEntries (fun _ => .ok (.movie ⟨"M"⟩)) none none
            [.ok ⟨"a", 1⟩, .ok ⟨"b", 2⟩] 0).filter
              (fun p => p.2.2 == "M")).length ∧
      ∀ p ∈ processedEntries (fun _ => .ok (.movie ⟨"M"⟩)) none none
          [.ok ⟨"a", 1⟩, .ok ⟨"b", 2⟩] 0,
        (fun _ => (.ok (.movie ⟨"M"⟩) : Except String MediaCollection))
            p.1.parent_id = .ok p.2.1 ∧
          titleOf p.2.1 = some p.2.2 ∧
          beforeCutoff none p.1.date_played = false) :=
  ⟨by decide,
    C3_counts (fun _ => .ok (.movie ⟨"M"⟩)) none none
      [.ok ⟨"a", 1⟩, .ok ⟨"b", 2⟩] ⟨[("M", 2)], [], 2⟩ (by decide) "M"⟩

/-- C4: the report has exactly one record per key of the metadata map,
each record pairing that key's metadata with the key's count
(defaulting to 0), and every record arises from a metadata key — so a
title present only in the counts map produces no record. -/
theorem C4_report (counts : List (String × Nat))
    (metadata : List (String × SeriesData))
    (hnd : (metadata.map Prod.fst).Nodup) :
    (buildReport counts metadata).length = metadata.length ∧
    (∀ t sd, List.lookup t metadata = some sd →
      (⟨sd, (List.lookup t counts).getD 0⟩ : Record)
        ∈ buildReport counts metadata) ∧
    (∀ r ∈ buildReport counts metadata, ∃ t sd,
      List.lookup t metadata = some sd ∧
        r = ⟨sd, (List.lookup t counts).getD 0⟩) := by
  refine ⟨by simp [buildReport], ?_, ?_⟩
  · intro t sd h
    have hm := lookup_mem metadata t sd h
    exact List.mem_map.mpr ⟨(t, sd), hm, rfl⟩
  · intro r hr
    obtain ⟨⟨t, sd⟩, hmem, heq⟩ := List.mem_map.mp hr
    exact ⟨t, sd, mem_lookup_of_nodupKeys metadata hnd t sd hmem, heq.symm⟩

/-- Witness for C4: two counted titles, only one with metadata, one
record in the report. -/
theorem C4_witness :
    (([("Show A", (⟨"Show A", "show-a", "d", "ed", 12, 1, "Unknown", [],
        "No image available"⟩ : SeriesData))].map Prod.fst)).Nodup ∧
    ((buildReport [("Show A", 2), ("Movie B", 1)]
        [("Show A", ⟨"Show A", "show-a", "d", "ed", 12, 1, "Unknown", [],
          "No image available"⟩)]).length
      = [("Show A", (⟨"Show A", "show-a", "d", "ed", 12, 1, "Unknown", [],
          "No image available"⟩ : SeriesData))].length ∧
    (∀ t sd, List.lookup t [("Show A", (⟨"Show A", "show-a", "d", "ed", 12, 1,
        "Unknown", [], "No image available"⟩ : SeriesData))] = some sd →
      (⟨sd, (List.lookup t [("Show A", 2), ("Movie B", 1)]).getD 0⟩ : Record)
        ∈ buildReport [("Show A", 2), ("Movie B", 1)]
            [("Show A", ⟨"Show A", "show-a", "d", "ed", 12, 1, "Unknown", [],
              "No image available"⟩)]) ∧
    (∀ r ∈ buildReport [("Show A", 2), ("Movie B", 1)]
        [("Show A", ⟨"Show A", "show-a", "d", "ed", 12, 1, "Unknown", [],
          "No image available"⟩)], ∃ t sd,
      List.lookup t [("Show A", (⟨"Show A", "show-a", "d", "ed", 12, 1,
          "Unknown", [], "No image available"⟩ : SeriesData))] = some sd ∧
        r = ⟨sd, (List.lookup t [("Show A", 2), ("Movie B", 1)]).getD 0⟩)) :=
  ⟨by decide,
    C4_report [("Show A", 2), ("Movie B", 1)]
      [("Show A", ⟨"Show A", "show-a", "d", "ed", 12, 1, "Unknown", [],
        "No image available"⟩)] (by decide)⟩

/-- C5: writing the cutoff and reading it back returns exactly the
written timestamp for every calendar-valid timestamp (the serialized
textual form keeps full nanosecond precision). -/
theorem C5_roundtrip (t : DateTimeUtc) (hv : t.isValid = true) :
    read_cutoff_date (some (update_cutoff_date t)) = .ok (some t) := by
  obtain ⟨h1, _, _, _, _, _, _⟩ := isValid_bounds t hv
  rw [update_cutoff_date, read_cutoff_date]
  rw [trimChars_formatDateTime t h1]
  obtain ⟨l1, hl1⟩ := formatDateTime_head t
  have hne : (formatDateTime t).isEmpty = false := by rw [hl1]; rfl
  rw [hne]
  simp only [Bool.false_eq_true, if_false]
  rw [parseDateTime_formatDateTime t hv]

/-- Witness for C5 at a concrete timestamp with nanoseconds. -/
theorem C5_witness :
    (⟨2024, 3, 5, 10, 20, 30, 123456789⟩ : DateTimeUtc).isValid = true ∧
    read_cutoff_date (some (update_cutoff_date ⟨2024, 3, 5, 10, 20, 30, 123456789⟩))
      = .ok (some ⟨2024, 3, 5, 10, 20, 30, 123456789⟩) :=
  ⟨by decide, C5_roundtrip ⟨2024, 3, 5, 10, 20, 30, 123456789⟩ (by decide)⟩

/-- C6: with "show_data.json" as the base name, the chosen report
filename is "show_data.json" when no such file exists, and otherwise
"show_data-N.json" for the smallest positive N naming a non-existent
file; the returned name never refers to an existing file. -/
theorem C6_unique_filename (fsExists : String → Bool) (fuel N : Nat)
    (hN : 1 ≤ N) (hfuel : N < fuel)
    (hfree : fsExists (numName "show_data" N) = false)
    (hmin : ∀ K, 1 ≤ K → K < N → fsExists (numName "show_data" K) = true) :
    ∃ r, get_unique_filename fsExists "show_data.json" fuel = some r ∧
      r = (if fsExists "show_data.json" = true then numName "show_data" N
           else "show_data.json") ∧
      fsExists r = false := by
  have hstem : trim_end_matches "show_data.json" ".json" = "show_data" := by
    decide
  rw [get_unique_filename, hstem]
  have hbase : ("show_data" ++ ".json" : String) = "show_data.json" := rfl
  rw [hbase]
  cases hb : fsExists "show_data.json" with
  | false =>
    cases fuel with
    | zero => omega
    | succ f =>
      rw [uniqueLoop, hb]
      refine ⟨"show_data.json", by simp, by simp [hb], hb⟩
  | true =>
    cases fuel with
    | zero => omega
    | succ f =>
      rw [uniqueLoop, hb]
      simp only [if_true]
      have hrun := uniqueLoop_free fsExists "show_data" (N - 1) 1 f (by omega)
        (fun i hi => hmin (1 + i) (by omega) (by omega))
        (by rw [show 1 + (N - 1) = N from by omega]; exact hfree)
      rw [show 1 + (N - 1) = N from by omega] at hrun
      exact ⟨numName "show_data" N, hrun, by simp [hb], hfree⟩

/-- Witness for C6: "show_data.json" and "show_data-1.json" exist,
N = 2 is the smallest free suffix. -/
theorem C6_witness :
    (1 : Nat) ≤ 2 ∧
    (fun s => s == "show_data.json" || s == "show_data-1.json")
        (numName "show_data" 2) = false ∧
    ∃ r, get_unique_filename
        (fun s => s == "show_data.json" || s == "show_data-1.json")
        "show_data.json" 4 = some r ∧
      r = (if (fun s => s == "show_data.json" || s == "show_data-1.json")
              "show_data.json" = true then numName "show_data" 2
           else "show_data.json") ∧
      (fun s => s == "show_data.json" || s == "show_data-1.json") r = false :=
  ⟨by decide, by decide,
    C6_unique_filename (fun s => s == "show_data.json" || s == "show_data-1.json")
      4 2 (by decide) (by decide) (by decide)
      (fun K h1 h2 => by
        have hK : K = 1 := by omega
        subst hK
        decide)⟩

/-- C7: when the scan finishes, the stored metadata of a title is
exactly the extraction from the first counted entry of that title
whose media is a `Series` (none if there is no such entry); later
entries for the same title never alter it. -/
theorem C7_metadata_once (resolve : String → Except String MediaCollection)
    (limit : Option Nat) (cutoff : Option Int)
    (entries : List (Except String HistoryEntry)) (st' : AggState)
    (h : runLoop resolve limit cutoff entries initState = .finished st')
    (t : String) :
    List.lookup t st'.metadata
      = (firstSeriesFor t (processedEntries resolve limit cutoff entries 0)).map
          extractSeriesData := by
  have heq := runLoop_finished_eq resolve limit cutoff entries initState st' h
  rw [heq]
  simp only [initState]
  rw [lookup_metaFold]
  simp

/-- Witness for C7: two entries of the same series title; metadata is
the extraction of the first. -/
theorem C7_witness :
    runLoop (fun _ => .ok (.series ⟨"A", "a", "d", "ed", 12, 1, none, [], ⟨[]⟩⟩))
        none none [.ok ⟨"x", 1⟩, .ok ⟨"y", 2⟩] initState
      = .finished ⟨[("A", 2)],
          [("A", extractSeriesData ⟨"A", "a", "d", "ed", 12, 1, none, [], ⟨[]⟩⟩)], 2⟩ ∧
    List.lookup "A"
        (⟨[("A", 2)],
          [("A", extractSeriesData ⟨"A", "a", "d", "ed", 12, 1, none, [], ⟨[]⟩⟩)],
          2⟩ : AggState).metadata
      = (firstSeriesFor "A"
          (processedEntries
            (fun _ => .ok (.series ⟨"A", "a", "d", "ed", 12, 1, none, [], ⟨[]⟩⟩))
            none none [.ok ⟨"x", 1⟩, .ok ⟨"y", 2⟩] 0)).map extractSeriesData :=
  ⟨by decide,
    C7_metadata_once
      (fun _ => .ok (.series ⟨"A", "a", "d", "ed", 12, 1, none, [], ⟨[]⟩⟩))
      none none [.ok ⟨"x", 1⟩, .ok ⟨"y", 2⟩]
      ⟨[("A", 2)],
        [("A", extractSeriesData ⟨"A", "a", "d", "ed", 12, 1, none, [], ⟨[]⟩⟩)], 2⟩
      (by decide) "A"⟩

/-- C8: the metadata-keys-are-counted invariant holds at the initial
state, is preserved by every counted-entry update (hence holds at
every point during the loop, all intermediate states being reached by
such updates), and holds at the final state of every finished scan. -/
theorem C8_invariant :
    metaKeysSubCounts initState ∧
    (∀ mc t st, metaKeysSubCounts st → metaKeysSubCounts (applyEntry mc t st)) ∧
    (∀ (resolve : String → Except String MediaCollection)
      (limit : Option Nat) (cutoff : Option Int)
      (entries : List (Except String HistoryEntry)) (st st' : AggState),
      metaKeysSubCounts st →
      runLoop resolve limit cutoff entries st = .finished st' →
      metaKeysSubCounts st') := by
  have hinit : metaKeysSubCounts initState := by
    intro t ht
    simp [initState] at ht
  have hstep : ∀ mc t st, metaKeysSubCounts st →
      metaKeysSubCounts (applyEntry mc t st) := by
    intro mc t st hst t' h'
    simp only [applyEntry] at h' ⊢
    rcases lookup_maybeInsertMeta_isSome st.metadata mc t t' h' with h1 | rfl
    · by_cases he : t' = t
      · subst he
        rw [lookup_bumpCount_self]
        rfl
      · rw [lookup_bumpCount_ne st.counts t t' he]
        exact hst t' h1
    · rw [lookup_bumpCount_self]
      rfl
  refine ⟨hinit, hstep, ?_⟩
  intro resolve limit cutoff entries
  induction entries with
  | nil =>
    intro st st' hst h
    rw [runLoop_nil] at h
    cases h
    exact hst
  | cons er rest ih =>
    intro st st' hst h
    cases hl : limitReached limit st.total with
    | true =>
      rw [runLoop_cons_limit hl] at h
      cases h
      exact hst
    | false =>
      cases er with
      | error e =>
        rw [runLoop_cons_err hl] at h
        exact ih st st' hst h
      | ok entry =>
        cases hres : resolve entry.parent_id with
        | error e => rw [runLoop_cons_abort hl hres] at h; cases h
        | ok mc =>
          cases ht : titleOf mc with
          | none =>
            rw [runLoop_cons_skip hl hres ht] at h
            exact ih st st' hst h
          | some ttl =>
            cases hb : beforeCutoff cutoff entry.date_played with
            | true =>
              rw [runLoop_cons_stop hl hres ht hb] at h
              cases h
              exact hst
            | false =>
              rw [runLoop_cons_count hl hres ht hb] at h
              exact ih _ st' (hstep mc ttl st hst) h

/-- Witness for C8: the invariant transported through one concrete
counted update and one concrete finished run. -/
theorem C8_witness :
    metaKeysSubCounts (applyEntry (.movie ⟨"A"⟩) "A" initState) ∧
    metaKeysSubCounts ⟨[("M", 1)], [], 1⟩ :=
  ⟨C8_invariant.2.1 (.movie ⟨"A"⟩) "A" initState
    (fun t ht => by simp [initState] at ht),
   C8_invariant.2.2 (fun _ => .ok (.movie ⟨"M"⟩)) none none [.ok ⟨"a", 1⟩]
    initState ⟨[("M", 1)], [], 1⟩ (fun t ht => by simp [initState] at ht)
    (by decide)⟩

theorem processedEntries_length_le (resolve : String → Except String MediaCollection)
    (n : Nat) (cutoff : Option Int) :
    ∀ (entries : List (Except String HistoryEntry)) (total : Nat),
      total + (processedEntries resolve (some n) cutoff entries total).length
        ≤ max total n := by
  intro entries
  induction entries with
  | nil => intro total; simp [processedEntries_nil, Nat.le_max_left]
  | cons er rest ih =>
    intro total
    cases hl : limitReached (some n) total with
    | true =>
      rw [processedEntries_cons_limit hl]
      simp [Nat.le_max_left]
    | false =>
      have hlt : total < n := by
        simp [limitReached] at hl
        omega
      cases er with
      | error e =>
        rw [processedEntries_cons_err hl]
        exact ih total
      | ok entry =>
        cases hres : resolve entry.parent_id with
        | error e =>
          rw [processedEntries_cons_abort hl hres]
          simp [Nat.le_max_left]
        | ok mc =>
          cases ht : titleOf mc with
          | none =>
            rw [processedEntries_cons_skip hl hres ht]
            exact ih total
          | some t =>
            cases hb : beforeCutoff cutoff entry.date_played with
            | true =>
              rw [processedEntries_cons_stop hl hres ht hb]
              simp [Nat.le_max_left]
            | false =>
              rw [processedEntries_cons_count hl hres ht hb]
              have hrec := ih (total + 1)
              simp only [List.length_cons]
              omega

/-- C9: once the counted-entry total has reached a configured limit
the scan stops with the state unchanged (no further entry is counted
or enriched), and a scan from the initial state counts exactly the
processed entries — entries skipped for stream errors or
classification never advance the total — so at most `n` entries are
ever counted. -/
theorem C9_limit (resolve : String → Except String MediaCollection)
    (n : Nat) (cutoff : Option Int)
    (entries : List (Except String HistoryEntry)) :
    (∀ st, n ≤ st.total →
      runLoop resolve (some n) cutoff entries st = .finished st) ∧
    (∀ st', runLoop resolve (some n) cutoff entries initState = .finished st' →
      st'.total = (processedEntries resolve (some n) cutoff entries 0).length ∧
      st'.total ≤ n) := by
  constructor
  · intro st hst
    cases entries with
    | nil => exact runLoop_nil
    | cons er rest => exact runLoop_cons_limit (by simp [limitReached, hst])
  · intro st' h
    have heq := runLoop_finished_eq resolve (some n) cutoff entries initState st' h
    have hlen := processedEntries_length_le resolve n cutoff entries 0
    constructor
    · rw [heq]
      simp [initState]
    · rw [heq]
      simp only [initState]
      simpa using hlen

/-- Witness for C9: limit 1; a reached limit stops the scan
unchanged, and a run from the initial state counts exactly one
entry. -/
theorem C9_witness :
    ((1 : Nat) ≤ (⟨[("M", 1)], [], 1⟩ : AggState).total ∧
      runLoop (fun _ => .ok (.movie ⟨"M"⟩)) (some 1) none
          [.ok ⟨"a", 1⟩, .ok ⟨"b", 2⟩] ⟨[("M", 1)], [], 1⟩
        = .finished ⟨[("M", 1)], [], 1⟩) ∧
    ((⟨[("M", 1)], [], 1⟩ : AggState).total
        = (processedEntries (fun _ => .ok (.movie ⟨"M"⟩)) (some 1) none
            [.ok ⟨"a", 1⟩, .ok ⟨"b", 2⟩] 0).length ∧
      (⟨[("M", 1)], [], 1⟩ : AggState).total ≤ 1) :=
  ⟨⟨by decide,
    (C9_limit (fun _ => .ok (.movie ⟨"M"⟩)) 1 none
      [.ok ⟨"a", 1⟩, .ok ⟨"b", 2⟩]).1 ⟨[("M", 1)], [], 1⟩ (by decide)⟩,
   (C9_limit (fun _ => .ok (.movie ⟨"M"⟩)) 1 none
      [.ok ⟨"a", 1⟩, .ok ⟨"b", 2⟩]).2 ⟨[("M", 1)], [], 1⟩ (by decide)⟩

/-- C10: an entry whose media resolves to an unclassified kind is
skipped before the cutoff comparison: the loop simply continues with
the remaining entries, even when that entry's play timestamp is
strictly earlier than the configured cutoff. -/
theorem C10_unclassified_skip (resolve : String → Except String MediaCollection)
    (limit : Option Nat) (cutoff : Option Int) (st : AggState)
    (entry : HistoryEntry) (mc : MediaCollection)
    (rest : List (Except String HistoryEntry))
    (hlim : limitReached limit st.total = false)
    (hres : resolve entry.parent_id = .ok mc)
    (hcls : titleOf mc = none)
    (hdate : beforeCutoff cutoff entry.date_played = true) :
    runLoop resolve limit cutoff (.ok entry :: rest) st
      = runLoop resolve limit cutoff rest st :=
  runLoop_cons_skip hlim hres hcls

/-- Witness for C10: an unclassified entry older than the cutoff does
not stop the scan. -/
theorem C10_witness :
    limitReached none (initState).total = false ∧
    (fun _ => (.ok .other : Except String MediaCollection)) "a" = .ok .other ∧
    titleOf .other = none ∧
    beforeCutoff (some 5) (1 : Int) = true ∧
    runLoop (fun _ => .ok .other) none (some 5)
        (.ok ⟨"a", 1⟩ :: [.ok ⟨"b", 6⟩]) initState
      = runLoop (fun _ => .ok .other) none (some 5) [.ok ⟨"b", 6⟩] initState :=
  ⟨rfl, rfl, rfl, by decide,
    C10_unclassified_skip (fun _ => .ok .other) none (some 5) initState
      ⟨"a", 1⟩ .other [.ok ⟨"b", 6⟩] rfl rfl rfl (by decide)⟩
